import Mathlib

/-!
Verification of the rate-limiting core of the mini-agent-platform repository.

The definitions below are a shallow embedding of the Python sources:
  * `app/services/rate_limit_memory.py`  (`InMemoryRateLimitBackend`)
  * `app/services/rate_limit_redis.py`   (`RATE_LIMIT_SCRIPT` and the
    exception flow of `RedisRateLimitBackend.check_and_consume`)
  * the `RateLimiter` facade (modelled from the spec, see below)

Timestamps are modelled as integers in milliseconds.  The Python code works
with `time.time() * 1000` values; every comparison performed by the algorithm
is an exact order comparison, so integer timestamps are a faithful model, and
Python's `int()` truncation of the quotient in the in-memory backend is
`Int.tdiv`, while Lua's `math.ceil` of the quotient in the Redis script is an
exact integer ceiling division.
-/

/-- Result of a rate-limit check (`RateLimitResult` dataclass in
`app/services/rate_limit_backend.py`). -/
structure RateLimitResult where
  allowed : Bool
  remaining : Int
  retry_after : Int
deriving DecidableEq, Repr

/-- The in-memory backend's store: `self._requests`, a `defaultdict(list)`
mapping keys to timestamp lists.  A missing key reads as `[]`. -/
def MemState : Type := String → List Int

/-- A fresh `InMemoryRateLimitBackend` (empty `defaultdict`). -/
def emptyMem : MemState := fun _ => []

/-- Pointwise update of the store at one key (`self._requests[key] = ...`). -/
def updateKey (s : MemState) (key : String) (v : List Int) : MemState :=
  fun k => if k = key then v else s k

/-- Python's `min` over a nonempty list (`min(self._requests[key])`);
returns 0 on the empty list, a case the source never reaches. -/
def listMin : List Int → Int
  | [] => 0
  | x :: xs => xs.foldl min x

namespace InMemory

/-- `InMemoryRateLimitBackend._cleanup_expired`: keep timestamps strictly
greater than `window_start = now - window_ms`. -/
def cleanup_expired (s : MemState) (key : String) (window_ms now : Int) : MemState :=
  updateKey s key ((s key).filter (fun ts => decide (now - window_ms < ts)))

/-- `InMemoryRateLimitBackend.check_and_consume`.  `now` is the value of
`time.time() * 1000` at the call.  Returns the result together with the
store after the call. -/
def check_and_consume (s : MemState) (key : String) (limit window_seconds now : Int) :
    RateLimitResult × MemState :=
  let window_ms := window_seconds * 1000
  let s1 := cleanup_expired s key window_ms now
  let count : Int := (s1 key).length
  if count < limit then
    (⟨true, limit - count - 1, 0⟩, updateKey s1 key (s1 key ++ [now]))
  else
    let retry_after : Int :=
      if s1 key ≠ [] then
        max 1 ((listMin (s1 key) + window_ms - now).tdiv 1000)
      else window_seconds
    (⟨false, 0, retry_after⟩, s1)

/-- `InMemoryRateLimitBackend.get_remaining`. -/
def get_remaining (s : MemState) (key : String) (limit window_seconds now : Int) :
    Int × MemState :=
  let window_ms := window_seconds * 1000
  let s1 := cleanup_expired s key window_ms now
  let count : Int := (s1 key).length
  (max 0 (limit - count), s1)

/-- A sequence of `check_and_consume` calls on one key, at the given
successive clock readings. -/
def runCalls (s : MemState) (key : String) (limit window_seconds : Int) :
    List Int → List RateLimitResult × MemState
  | [] => ([], s)
  | t :: ts =>
    let p := check_and_consume s key limit window_seconds t
    let q := runCalls p.2 key limit window_seconds ts
    (p.1 :: q.1, q.2)

/-- A sequence of `get_remaining` calls on one key, at the given successive
clock readings (only the final store is kept). -/
def runPeeks (s : MemState) (key : String) (limit window_seconds : Int) :
    List Int → MemState
  | [] => s
  | t :: ts => runPeeks (get_remaining s key limit window_seconds t).2 key limit window_seconds ts

/-- The action of `check_and_consume` on a single key's record list
(everything the call does apart from writing the list back to the map). -/
def stepKey (recs : List Int) (limit window_seconds now : Int) : RateLimitResult × List Int :=
  let window_ms := window_seconds * 1000
  let pruned := recs.filter (fun ts => decide (now - window_ms < ts))
  let count : Int := pruned.length
  if count < limit then
    (⟨true, limit - count - 1, 0⟩, pruned ++ [now])
  else
    let retry_after : Int :=
      if pruned ≠ [] then
        max 1 ((listMin pruned + window_ms - now).tdiv 1000)
      else window_seconds
    (⟨false, 0, retry_after⟩, pruned)

/-- `runCalls` restricted to a single key's record list. -/
def runKey (recs : List Int) (limit window_seconds : Int) :
    List Int → List RateLimitResult × List Int
  | [] => ([], recs)
  | t :: ts =>
    let p := stepKey recs limit window_seconds t
    let q := runKey p.2 limit window_seconds ts
    (p.1 :: q.1, q.2)

end InMemory

/-- The `(allowed, remaining)` projection of a result, the part of the
outcome the sequence claims constrain. -/
def outcome (r : RateLimitResult) : Bool × Int := (r.allowed, r.remaining)

/-- Specification of the `(allowed, remaining)` outcomes of `n` successive
in-window calls starting from `count` live records: each call is admitted
with `remaining = limit - count - 1` while `count < limit`, incrementing the
count, and denied with `remaining = 0` afterwards. -/
def expectedOutcomes (count limit : Int) : Nat → List (Bool × Int)
  | 0 => []
  | Nat.succ n =>
    if count < limit then (true, limit - count - 1) :: expectedOutcomes (count + 1) limit n
    else (false, 0) :: expectedOutcomes count limit n

namespace RedisScript

/-- Integer ceiling division, the value of Lua's
`math.ceil((oldest + window - now) / 1000)` on integer inputs. -/
def ceilDiv (a b : Int) : Int := -((-a).fdiv b)

/-- `RATE_LIMIT_SCRIPT` from `app/services/rate_limit_redis.py`, acting on
the sorted set of scores stored at the key.  `ZREMRANGEBYSCORE key -inf
window_start` drops scores `≤ window_start`; `ZCARD` counts; on admission
`ZADD` stores `now` (the member's random suffix only disambiguates equal
scores and is not modelled); on denial `ZRANGE key 0 0 WITHSCORES` reads the
smallest score.  The `EXPIRE` call only sets a defensive TTL and is not
modelled.  Returns the `{allowed, remaining, retry_after}` reply and the
surviving scores. -/
def rate_limit_script (zset : List Int) (window_seconds limit now : Int) :
    (Int × Int × Int) × List Int :=
  let window := window_seconds * 1000
  let window_start := now - window
  let z1 := zset.filter (fun s => decide (window_start < s))
  let count : Int := z1.length
  if count < limit then
    ((1, limit - count - 1, 0), z1 ++ [now])
  else
    let retry_after : Int :=
      if z1 ≠ [] then ceilDiv (listMin z1 + window - now) 1000
      else window_seconds
    ((0, 0, retry_after), z1)

end RedisScript

/-- `ServiceUnavailableError` from `app/exceptions.py` as raised by the Redis
backend: its `error_code`, `message` and the `reason` entry of `details`. -/
structure ServiceUnavailableError where
  error_code : String
  message : String
  reason : String
deriving DecidableEq, Repr

/-- A Python exception as seen by the `except` clauses of the Redis backend:
either an already-raised `ServiceUnavailableError` or any other exception. -/
inductive PyExn where
  | service (e : ServiceUnavailableError)
  | other (msg : String)
deriving DecidableEq, Repr

namespace RedisBackend

/-- The error `_get_client` raises when `redis.from_url`/`ping` fails. -/
def connectionFailedError : ServiceUnavailableError :=
  ⟨"SERVICE_UNAVAILABLE", "Rate limiting service temporarily unavailable",
    "redis_connection_failed"⟩

/-- The error `check_and_consume` wraps unexpected exceptions into. -/
def redisWrappedError : ServiceUnavailableError :=
  ⟨"SERVICE_UNAVAILABLE", "Rate limiting service temporarily unavailable",
    "redis_error"⟩

/-- `RedisRateLimitBackend._get_client`: any exception while connecting or
pinging (the initial liveness probe) is replaced by a
`ServiceUnavailableError` with reason `redis_connection_failed`.  `connect`
is the outcome of the connection attempt (trivially `ok` when the client is
already cached). -/
def get_client (connect : Except PyExn Unit) : Except PyExn Unit :=
  match connect with
  | .ok _ => .ok ()
  | .error _ => .error (.service connectionFailedError)

/-- The body of the `try` block of `RedisRateLimitBackend.check_and_consume`:
obtain the client, evaluate `RATE_LIMIT_SCRIPT`, and unpack the reply
(`bool(allowed)`, `int(remaining)`, `int(retry_after)`).  `evalReply` is the
outcome of the `client.eval` call. -/
def check_body (connect : Except PyExn Unit) (evalReply : Except PyExn (Int × Int × Int)) :
    Except PyExn RateLimitResult :=
  match get_client connect with
  | .error e => .error e
  | .ok _ =>
    match evalReply with
    | .error e => .error e
    | .ok r => .ok ⟨decide (r.1 ≠ 0), r.2.1, r.2.2⟩

/-- `RedisRateLimitBackend.check_and_consume`: the `try` body with the two
`except` clauses — an already-raised `ServiceUnavailableError` is re-raised
unchanged, every other exception is wrapped as a `ServiceUnavailableError`
with reason `redis_error`. -/
def check_and_consume (connect : Except PyExn Unit)
    (evalReply : Except PyExn (Int × Int × Int)) :
    Except ServiceUnavailableError RateLimitResult :=
  match check_body connect evalReply with
  | .ok r => .ok r
  | .error (.service e) => .error e
  | .error (.other _) => .error redisWrappedError

end RedisBackend

/-- Modelled from the spec: the `RateLimiter` facade of §4.5 — it binds a
backend instance to the configured `(limit, window_seconds)` pair, derives
`key = "ratelimit:" + tenant_id`, and delegates.  The facade with a pluggable
backend and a `get_remaining` operation is missing from `src/` (the
`RateLimiter` class in `src/app/services/rate_limiter.py` is a stale
direct-Redis version without it); only its unit tests
(`tests/unit/test_rate_limiter.py`) and its caller in the execution path are
present.  Here it is instantiated with the in-memory backend. -/
structure RateLimiter where
  backend : MemState
  limit : Int
  window_seconds : Int

/-- Modelled from the spec: the partition key `"ratelimit:" + tenant_id`. -/
def rate_limit_key (tenant_id : String) : String := "ratelimit:" ++ tenant_id

/-- Modelled from the spec: `RateLimiter.check_and_consume(tenant_id)`
delegates to the backend on the derived key with the configured limits. -/
def RateLimiter.check_and_consume (rl : RateLimiter) (tenant_id : String) (now : Int) :
    RateLimitResult × RateLimiter :=
  let p := InMemory.check_and_consume rl.backend (rate_limit_key tenant_id)
    rl.limit rl.window_seconds now
  (p.1, ⟨p.2, rl.limit, rl.window_seconds⟩)

/-- Modelled from the spec: `RateLimiter.get_remaining(tenant_id)` delegates
to the backend on the derived key without consuming. -/
def RateLimiter.get_remaining (rl : RateLimiter) (tenant_id : String) (now : Int) :
    Int × RateLimiter :=
  let p := InMemory.get_remaining rl.backend (rate_limit_key tenant_id)
    rl.limit rl.window_seconds now
  (p.1, ⟨p.2, rl.limit, rl.window_seconds⟩)

-- Basic store lemmas --------------------------------------------------------

theorem updateKey_same (s : MemState) (key : String) (v : List Int) :
    updateKey s key v key = v := by
  simp [updateKey]

theorem updateKey_other (s : MemState) (key k : String) (v : List Int) (h : k ≠ key) :
    updateKey s key v k = s k := by
  simp [updateKey, h]

theorem updateKey_updateKey (s : MemState) (key : String) (v w : List Int) :
    updateKey (updateKey s key v) key w = updateKey s key w := by
  funext k
  by_cases h : k = key <;> simp [updateKey, h]

theorem updateKey_self (s : MemState) (key : String) (v : List Int) (h : s key = v) :
    updateKey s key v = s := by
  funext k
  by_cases hk : k = key <;> simp [updateKey, hk, h.symm]

-- Bridges between the map-level operations and the per-key operations -------

theorem check_and_consume_eq_stepKey (s : MemState) (key : String)
    (limit window_seconds now : Int) :
    InMemory.check_and_consume s key limit window_seconds now =
      ((InMemory.stepKey (s key) limit window_seconds now).1,
        updateKey s key (InMemory.stepKey (s key) limit window_seconds now).2) := by
  rw [InMemory.check_and_consume, InMemory.stepKey, InMemory.cleanup_expired]
  simp only [updateKey_same]
  by_cases h :
      ((((s key).filter (fun ts => decide (now - window_seconds * 1000 < ts))).length : Int)
        < limit) <;>
    simp only [h, if_true, if_false, updateKey_updateKey, reduceIte]

theorem get_remaining_eq_filter (s : MemState) (key : String)
    (limit window_seconds now : Int) :
    InMemory.get_remaining s key limit window_seconds now =
      (max 0 (limit -
          (((s key).filter (fun ts => decide (now - window_seconds * 1000 < ts))).length : Int)),
        updateKey s key
          ((s key).filter (fun ts => decide (now - window_seconds * 1000 < ts)))) := by
  rw [InMemory.get_remaining, InMemory.cleanup_expired]
  simp only [updateKey_same]

theorem runCalls_eq_runKey (s : MemState) (key : String) (limit window_seconds : Int)
    (times : List Int) :
    InMemory.runCalls s key limit window_seconds times =
      ((InMemory.runKey (s key) limit window_seconds times).1,
        updateKey s key (InMemory.runKey (s key) limit window_seconds times).2) := by
  induction times generalizing s with
  | nil =>
    simp [InMemory.runCalls, InMemory.runKey, updateKey_self s key (s key) rfl]
  | cons t ts ih =>
    rw [InMemory.runCalls, InMemory.runKey]
    simp only [check_and_consume_eq_stepKey s key limit window_seconds t]
    rw [ih (updateKey s key (InMemory.stepKey (s key) limit window_seconds t).2)]
    simp only [updateKey_same, updateKey_updateKey]

-- Expiry recovery (C6) ------------------------------------------------------

theorem cleanup_all_expired (s : MemState) (key : String) (window_ms now last : Int)
    (hle : ∀ ts ∈ s key, ts ≤ last) (hgap : window_ms < now - last) :
    InMemory.cleanup_expired s key window_ms now key = [] := by
  rw [InMemory.cleanup_expired, updateKey_same, List.filter_eq_nil_iff]
  intro ts hts
  have h1 : ts ≤ last := hle ts hts
  simp only [decide_eq_true_eq, not_lt]
  omega

/-- C6. After every stored record for a key is strictly older than the
window, the next `check_and_consume` admits with `remaining = limit - 1`. -/
theorem expiry_recovery (s : MemState) (key : String) (limit window_seconds last now : Int)
    (hlim : 1 ≤ limit) (hle : ∀ ts ∈ s key, ts ≤ last)
    (hgap : window_seconds * 1000 < now - last) :
    (InMemory.check_and_consume s key limit window_seconds now).1 =
      ⟨true, limit - 1, 0⟩ := by
  have hnil := cleanup_all_expired s key (window_seconds * 1000) now last hle hgap
  rw [InMemory.check_and_consume]
  simp only [hnil, List.length_nil, Nat.cast_zero]
  rw [if_pos (by omega)]
  simp

/-- Witness for C6: a concrete exhausted key recovering after the window. -/
theorem expiry_recovery_witness :
    (InMemory.check_and_consume (updateKey emptyMem "k" [0, 10, 20]) "k" 3 1 1101).1 =
      ⟨true, 2, 0⟩ := by
  have h := expiry_recovery (updateKey emptyMem "k" [0, 10, 20]) "k" 3 1 20 1101
    (by omega) (by intro ts hts; simp [updateKey_same] at hts; omega) (by omega)
  exact h

/-- C10. With `limit ≤ 0` and a fresh key the in-memory backend returns a
plain denial `⟨false, 0, window_seconds⟩` (the defensive default), raising
nothing. -/
theorem nonpositive_limit_denies (s : MemState) (key : String)
    (limit window_seconds now : Int) (hlim : limit ≤ 0) (hfresh : s key = []) :
    (InMemory.check_and_consume s key limit window_seconds now).1 =
      ⟨false, 0, window_seconds⟩ := by
  rw [InMemory.check_and_consume]
  have hnil : InMemory.cleanup_expired s key (window_seconds * 1000) now key = [] := by
    rw [InMemory.cleanup_expired, updateKey_same, hfresh, List.filter_nil]
  simp only [hnil, List.length_nil, Nat.cast_zero]
  rw [if_neg (by omega)]
  simp

/-- Witness for C10: `limit = 0` on a fresh key. -/
theorem nonpositive_limit_denies_witness :
    (InMemory.check_and_consume emptyMem "k" 0 60 12345).1 = ⟨false, 0, 60⟩ :=
  nonpositive_limit_denies emptyMem "k" 0 60 12345 (by omega) rfl

-- The in-window sequence lemma ----------------------------------------------

/-- Core lemma: starting from records `pre` that stay in-window at every call
time, a sequence of calls whose times pairwise differ by less than the window
produces the `expectedOutcomes` starting at count `pre.length`, and the
surviving records are `pre` plus the admitted call times. -/
theorem runKey_in_window (times : List Int) (pre : List Int) (limit wsec : Int)
    (hpre : ∀ a ∈ pre, ∀ t ∈ times, t - a < wsec * 1000)
    (hpair : ∀ t ∈ times, ∀ u ∈ times, u - t < wsec * 1000) :
    (InMemory.runKey pre limit wsec times).1.map outcome =
        expectedOutcomes pre.length limit times.length ∧
    (InMemory.runKey pre limit wsec times).2 =
        pre ++ times.take (limit - pre.length).toNat := by
  induction times generalizing pre with
  | nil => simp [InMemory.runKey, expectedOutcomes]
  | cons t ts ih =>
    have hfilter : pre.filter (fun a => decide (t - wsec * 1000 < a)) = pre := by
      rw [List.filter_eq_self]
      intro a ha
      have h1 := hpre a ha t (by simp)
      simp only [decide_eq_true_eq]
      omega
    rw [InMemory.runKey, List.length_cons, expectedOutcomes]
    by_cases hlt : (pre.length : Int) < limit
    · have hstep : InMemory.stepKey pre limit wsec t =
          (⟨true, limit - pre.length - 1, 0⟩, pre ++ [t]) := by
        rw [InMemory.stepKey]
        simp only [hfilter]
        rw [if_pos hlt]
      have hpre2 : ∀ a ∈ pre ++ [t], ∀ u ∈ ts, u - a < wsec * 1000 := by
        intro a ha u hu
        rcases List.mem_append.mp ha with h | h
        · exact hpre a h u (List.mem_cons_of_mem t hu)
        · have : a = t := by simpa using h
          subst this
          exact hpair a (List.mem_cons_self a ts) u (List.mem_cons_of_mem a hu)
      have hpair2 : ∀ u ∈ ts, ∀ v ∈ ts, v - u < wsec * 1000 := by
        intro u hu v hv
        exact hpair u (List.mem_cons_of_mem t hu) v (List.mem_cons_of_mem t hv)
      obtain ⟨ih1, ih2⟩ := ih (pre ++ [t]) hpre2 hpair2
      have hlen2 : (((pre ++ [t]).length : Nat) : Int) = (pre.length : Int) + 1 := by
        simp [List.length_append]
      constructor
      · rw [hstep]
        simp only [List.map_cons, if_pos hlt, ih1, outcome]
        rw [hlen2]
      · rw [hstep]
        have htn : (limit - (pre.length : Int)).toNat =
            (limit - ((pre.length : Int) + 1)).toNat + 1 := by
          omega
        simp only [ih2, hlen2, htn, List.take_succ_cons]
        simp [List.append_assoc]
    · have hstep : (InMemory.stepKey pre limit wsec t).1.allowed = false ∧
          (InMemory.stepKey pre limit wsec t).1.remaining = 0 ∧
          (InMemory.stepKey pre limit wsec t).2 = pre := by
        rw [InMemory.stepKey]
        simp only [hfilter]
        rw [if_neg hlt]
        exact ⟨rfl, rfl, rfl⟩
      have hpair2 : ∀ u ∈ ts, ∀ v ∈ ts, v - u < wsec * 1000 := by
        intro u hu v hv
        exact hpair u (List.mem_cons_of_mem t hu) v (List.mem_cons_of_mem t hv)
      have hpre2 : ∀ a ∈ pre, ∀ u ∈ ts, u - a < wsec * 1000 := by
        intro a ha u hu
        exact hpre a ha u (List.mem_cons_of_mem t hu)
      obtain ⟨ih1, ih2⟩ := ih pre hpre2 hpair2
      constructor
      · simp only [List.map_cons, hstep.2.2, if_neg hlt, ih1, outcome, hstep.1, hstep.2.1]
      · have htn : (limit - (pre.length : Int)).toNat = 0 := by omega
        simp only [hstep.2.2, ih2, htn]
        simp

-- Counting the expected outcomes --------------------------------------------

theorem countP_expectedOutcomes_allowed (n : Nat) :
    ∀ (c l : Int), (expectedOutcomes c l n).countP (fun p => p.1) = min n (l - c).toNat := by
  induction n with
  | zero => intro c l; simp [expectedOutcomes]
  | succ n ih =>
    intro c l
    rw [expectedOutcomes]
    by_cases h : c < l
    · rw [if_pos h, List.countP_cons]
      have h2 : (l - (c + 1)).toNat + 1 = (l - c).toNat := by omega
      simp only [ih (c + 1) l]
      simp
      omega
    · rw [if_neg h, List.countP_cons]
      have h2 : (l - c).toNat = 0 := by omega
      simp only [ih c l]
      simp [h2]

theorem countP_expectedOutcomes_denied (n : Nat) :
    ∀ (c l : Int), (expectedOutcomes c l n).countP (fun p => !p.1) =
      n - min n (l - c).toNat := by
  induction n with
  | zero => intro c l; simp [expectedOutcomes]
  | succ n ih =>
    intro c l
    rw [expectedOutcomes]
    by_cases h : c < l
    · rw [if_pos h, List.countP_cons]
      have h2 : (l - (c + 1)).toNat + 1 = (l - c).toNat := by omega
      simp only [ih (c + 1) l]
      simp
      omega
    · rw [if_neg h, List.countP_cons]
      have h2 : (l - c).toNat = 0 := by omega
      simp only [ih c l]
      simp [h2]

-- C1: window bound on a fresh key -------------------------------------------

/-- C1. On a fresh key, for `check_and_consume` calls all lying within one
`window_seconds` interval (any two call times differ by less than
`window_seconds * 1000` ms), the `(allowed, remaining)` outcomes are exactly
`expectedOutcomes 0 limit`: the i-th call (1-based) is admitted with
`remaining = limit - i` for `i = 1..limit` and every later call in the
interval is denied with `remaining = 0`; in particular at most `limit` calls
are admitted. -/
theorem window_bound_sequence (s : MemState) (key : String) (limit window_seconds : Int)
    (times : List Int) (hfresh : s key = []) (hlim : 1 ≤ limit)
    (hpair : ∀ t ∈ times, ∀ u ∈ times, u - t < window_seconds * 1000) :
    ((InMemory.runCalls s key limit window_seconds times).1.map outcome =
        expectedOutcomes 0 limit times.length) ∧
    (((InMemory.runCalls s key limit window_seconds times).1.countP
        (fun r => r.allowed) : Int) ≤ limit) := by
  have hb := runCalls_eq_runKey s key limit window_seconds times
  have hL := runKey_in_window times (s key) limit window_seconds
    (by rw [hfresh]; intro a ha; simp at ha) hpair
  rw [hfresh] at hL
  obtain ⟨h1, h2⟩ := hL
  have hmap : (InMemory.runCalls s key limit window_seconds times).1.map outcome =
      expectedOutcomes 0 limit times.length := by
    rw [hb, hfresh]
    simpa using h1
  refine ⟨hmap, ?_⟩
  have hcomp : ((fun (p : Bool × Int) => p.1) ∘ outcome) = fun r => r.allowed := rfl
  have hc : ((InMemory.runCalls s key limit window_seconds times).1.map outcome).countP
      (fun p => p.1) = min times.length limit.toNat := by
    rw [hmap, countP_expectedOutcomes_allowed]
    norm_num
  rw [List.countP_map, hcomp] at hc
  rw [hc]
  omega

/-- Witness for C1: `limit = 2`, three calls inside a 1-second window. -/
theorem window_bound_sequence_witness :
    ((InMemory.runCalls emptyMem "k" 2 1 [5, 6, 7]).1.map outcome =
        expectedOutcomes 0 2 3) ∧
    (((InMemory.runCalls emptyMem "k" 2 1 [5, 6, 7]).1.countP
        (fun r => r.allowed) : Int) ≤ 2) :=
  window_bound_sequence emptyMem "k" 2 1 [5, 6, 7] rfl (by omega) (by decide)

-- C5: concurrency exactness --------------------------------------------------

/-- C5. On a fresh key, `2 * limit` calls all lying within one window — any
serialization of `2 * limit` simultaneous callers, each call being executed
atomically (the in-memory critical section contains no suspension point; the
Redis script is one atomic unit) — produce exactly `limit` admissions and
exactly `limit` denials. -/
theorem concurrency_exactness (s : MemState) (key : String) (limit window_seconds : Int)
    (times : List Int) (hfresh : s key = []) (hlim : 1 ≤ limit)
    (hlen : (times.length : Int) = 2 * limit)
    (hpair : ∀ t ∈ times, ∀ u ∈ times, u - t < window_seconds * 1000) :
    (((InMemory.runCalls s key limit window_seconds times).1.countP
        (fun r => r.allowed) : Int) = limit) ∧
    (((InMemory.runCalls s key limit window_seconds times).1.countP
        (fun r => !r.allowed) : Int) = limit) := by
  have hb := runCalls_eq_runKey s key limit window_seconds times
  have hL := runKey_in_window times (s key) limit window_seconds
    (by rw [hfresh]; intro a ha; simp at ha) hpair
  rw [hfresh] at hL
  obtain ⟨h1, h2⟩ := hL
  have hmap : (InMemory.runCalls s key limit window_seconds times).1.map outcome =
      expectedOutcomes 0 limit times.length := by
    rw [hb, hfresh]
    simpa using h1
  have hcompA : ((fun (p : Bool × Int) => p.1) ∘ outcome) = fun r => r.allowed := rfl
  have hcompD : ((fun (p : Bool × Int) => !p.1) ∘ outcome) = fun r => !r.allowed := rfl
  have hcA : ((InMemory.runCalls s key limit window_seconds times).1.map outcome).countP
      (fun p => p.1) = min times.length limit.toNat := by
    rw [hmap, countP_expectedOutcomes_allowed]
    norm_num
  have hcD : ((InMemory.runCalls s key limit window_seconds times).1.map outcome).countP
      (fun p => !p.1) = times.length - min times.length limit.toNat := by
    rw [hmap, countP_expectedOutcomes_denied]
    norm_num
  rw [List.countP_map, hcompA] at hcA
  rw [List.countP_map, hcompD] at hcD
  rw [hcA, hcD]
  constructor <;> omega

/-- Witness for C5: `limit = 2`, four simultaneous calls. -/
theorem concurrency_exactness_witness :
    (((InMemory.runCalls emptyMem "k" 2 1 [10, 10, 10, 10]).1.countP
        (fun r => r.allowed) : Int) = 2) ∧
    (((InMemory.runCalls emptyMem "k" 2 1 [10, 10, 10, 10]).1.countP
        (fun r => !r.allowed) : Int) = 2) :=
  concurrency_exactness emptyMem "k" 2 1 [10, 10, 10, 10] rfl (by omega) (by decide)
    (by decide)

-- C7: remaining is max(0, limit - count), never negative ---------------------

theorem stepKey_remaining_nonneg (recs : List Int) (limit window_seconds now : Int) :
    0 ≤ (InMemory.stepKey recs limit window_seconds now).1.remaining := by
  rw [InMemory.stepKey]
  split
  · rename_i h
    simp only
    omega
  · simp

theorem runCalls_remaining_nonneg (key : String) (limit window_seconds : Int)
    (times : List Int) :
    ∀ s : MemState, (InMemory.runCalls s key limit window_seconds times).1.all
      (fun r => decide (0 ≤ r.remaining)) = true := by
  induction times with
  | nil => intro s; simp [InMemory.runCalls]
  | cons t ts ih =>
    intro s
    rw [InMemory.runCalls]
    simp only [List.all_cons, Bool.and_eq_true]
    constructor
    · rw [check_and_consume_eq_stepKey]
      simpa using stepKey_remaining_nonneg (s key) limit window_seconds t
    · exact ih _

/-- C7. Every `remaining` the in-memory backend returns is
`max 0 (limit - count)` for the in-window record count the call observes
(for an admitted call this includes the record it just inserted), so it is
never negative; over any sequence of calls every returned `remaining` is
nonnegative. -/
theorem remaining_max_formula (s : MemState) (key : String)
    (limit window_seconds now : Int) (times : List Int) :
    ((InMemory.check_and_consume s key limit window_seconds now).1.remaining =
        max 0 (limit -
          ((((s key).filter (fun ts => decide (now - window_seconds * 1000 < ts))).length : Int) +
            (if (InMemory.check_and_consume s key limit window_seconds now).1.allowed
              then 1 else 0)))) ∧
    ((InMemory.get_remaining s key limit window_seconds now).1 =
        max 0 (limit -
          (((s key).filter (fun ts => decide (now - window_seconds * 1000 < ts))).length : Int))) ∧
    (0 ≤ (InMemory.check_and_consume s key limit window_seconds now).1.remaining) ∧
    (0 ≤ (InMemory.get_remaining s key limit window_seconds now).1) ∧
    ((InMemory.runCalls s key limit window_seconds times).1.all
        (fun r => decide (0 ≤ r.remaining)) = true) := by
  refine ⟨?_, ?_, ?_, ?_, runCalls_remaining_nonneg key limit window_seconds times s⟩
  · rw [check_and_consume_eq_stepKey, InMemory.stepKey]
    split
    · rename_i h
      simp
      omega
    · rename_i h
      simp
      omega
  · rw [get_remaining_eq_filter]
  · rw [check_and_consume_eq_stepKey]
    exact stepKey_remaining_nonneg (s key) limit window_seconds now
  · rw [get_remaining_eq_filter]
    simp

-- C8: peek neutrality ---------------------------------------------------------

theorem filter_filter_window (l : List Int) (wms u t2 : Int) (h : u ≤ t2) :
    (l.filter (fun ts => decide (u - wms < ts))).filter
        (fun ts => decide (t2 - wms < ts)) =
      l.filter (fun ts => decide (t2 - wms < ts)) := by
  rw [List.filter_filter]
  apply List.filter_congr
  intro a ha
  by_cases h2 : t2 - wms < a
  · have h3 : u - wms < a := by omega
    simp [h2, h3]
  · simp [h2]

theorem stepKey_congr (recs recs2 : List Int) (limit window_seconds now : Int)
    (h : recs.filter (fun ts => decide (now - window_seconds * 1000 < ts)) =
      recs2.filter (fun ts => decide (now - window_seconds * 1000 < ts))) :
    InMemory.stepKey recs limit window_seconds now =
      InMemory.stepKey recs2 limit window_seconds now := by
  rw [InMemory.stepKey, InMemory.stepKey]
  simp only [h]

theorem peek_then_check (s : MemState) (key : String) (limit window_seconds u t2 : Int)
    (h : u ≤ t2) :
    InMemory.check_and_consume ((InMemory.get_remaining s key limit window_seconds u).2)
        key limit window_seconds t2 =
      InMemory.check_and_consume s key limit window_seconds t2 := by
  rw [get_remaining_eq_filter]
  simp only
  rw [check_and_consume_eq_stepKey, check_and_consume_eq_stepKey, updateKey_same,
    updateKey_updateKey]
  rw [stepKey_congr ((s key).filter (fun ts => decide (u - window_seconds * 1000 < ts)))
    (s key) limit window_seconds t2
    (filter_filter_window (s key) (window_seconds * 1000) u t2 h)]

theorem runPeeks_then_check (key : String) (limit window_seconds t2 : Int)
    (peeks : List Int) :
    ∀ s : MemState, (∀ u ∈ peeks, u ≤ t2) →
      InMemory.check_and_consume (InMemory.runPeeks s key limit window_seconds peeks)
          key limit window_seconds t2 =
        InMemory.check_and_consume s key limit window_seconds t2 := by
  induction peeks with
  | nil => intro s _; rfl
  | cons u us ih =>
    intro s hle
    rw [InMemory.runPeeks]
    rw [ih _ (fun v hv => hle v (List.mem_cons_of_mem u hv))]
    exact peek_then_check s key limit window_seconds u t2 (hle u (List.mem_cons_self u us))

/-- C8. `get_remaining` never inserts a record: its state at the key is a
sublist of the previous one, every removed record was already outside the
window, other keys are untouched; consequently any number of `get_remaining`
calls (at times not later than the next check) between two
`check_and_consume` calls leaves the second call's outcome unchanged. -/
theorem peek_neutrality (s : MemState) (key k : String) (limit window_seconds : Int)
    (peeks : List Int) (now t2 ts : Int)
    (hpeeks : ∀ u ∈ peeks, u ≤ t2) (hk : k ≠ key) :
    (((InMemory.get_remaining s key limit window_seconds now).2 key).Sublist (s key)) ∧
    ((InMemory.get_remaining s key limit window_seconds now).2 k = s k) ∧
    (ts ∈ s key → ts ∉ (InMemory.get_remaining s key limit window_seconds now).2 key →
      ts ≤ now - window_seconds * 1000) ∧
    ((InMemory.check_and_consume (InMemory.runPeeks s key limit window_seconds peeks)
        key limit window_seconds t2).1 =
      (InMemory.check_and_consume s key limit window_seconds t2).1) := by
  refine ⟨?_, ?_, ?_, ?_⟩
  · rw [get_remaining_eq_filter]
    simp only [updateKey_same]
    exact List.filter_sublist _
  · rw [get_remaining_eq_filter]
    exact updateKey_other _ _ _ _ hk
  · intro h1 h2
    rw [get_remaining_eq_filter] at h2
    simp only [updateKey_same, List.mem_filter] at h2
    have h3 : ¬ (decide (now - window_seconds * 1000 < ts) = true) := fun hd => h2 ⟨h1, hd⟩
    simp only [decide_eq_true_eq] at h3
    omega
  · rw [runPeeks_then_check key limit window_seconds t2 peeks s hpeeks]

/-- Witness for C8: one stored record, two peeks between two checks. -/
theorem peek_neutrality_witness :
    (((InMemory.get_remaining (updateKey emptyMem "k" [5]) "k" 2 1 10).2 "k").Sublist
        (updateKey emptyMem "k" [5] "k")) ∧
    ((InMemory.get_remaining (updateKey emptyMem "k" [5]) "k" 2 1 10).2 "j" =
        updateKey emptyMem "k" [5] "j") ∧
    ((5 : Int) ∈ updateKey emptyMem "k" [5] "k" →
      (5 : Int) ∉ (InMemory.get_remaining (updateKey emptyMem "k" [5]) "k" 2 1 10).2 "k" →
      (5 : Int) ≤ 10 - 1 * 1000) ∧
    ((InMemory.check_and_consume
        (InMemory.runPeeks (updateKey emptyMem "k" [5]) "k" 2 1 [10, 12]) "k" 2 1 15).1 =
      (InMemory.check_and_consume (updateKey emptyMem "k" [5]) "k" 2 1 15).1) :=
  peek_neutrality (updateKey emptyMem "k" [5]) "k" "j" 2 1 [10, 12] 10 15 5
    (by decide) (by decide)

-- C9: key isolation -----------------------------------------------------------

/-- C9. Any sequence of `check_and_consume` calls on key `A` leaves the
stored records of a distinct key `B` unchanged, so `B`'s remaining count is
unaffected. -/
theorem key_isolation (s : MemState) (A B : String) (limit window_seconds now : Int)
    (times : List Int) (hAB : B ≠ A) :
    ((InMemory.runCalls s A limit window_seconds times).2 B = s B) ∧
    ((InMemory.get_remaining (InMemory.runCalls s A limit window_seconds times).2
        B limit window_seconds now).1 =
      (InMemory.get_remaining s B limit window_seconds now).1) := by
  have h1 : (InMemory.runCalls s A limit window_seconds times).2 B = s B := by
    rw [runCalls_eq_runKey]
    exact updateKey_other _ _ _ _ hAB
  refine ⟨h1, ?_⟩
  rw [get_remaining_eq_filter, get_remaining_eq_filter, h1]

/-- Witness for C9: exhausting key `a` leaves key `b`'s record intact. -/
theorem key_isolation_witness :
    ((InMemory.runCalls (updateKey emptyMem "b" [7]) "a" 2 60 [1, 2, 3]).2 "b" =
        updateKey emptyMem "b" [7] "b") ∧
    ((InMemory.get_remaining
        (InMemory.runCalls (updateKey emptyMem "b" [7]) "a" 2 60 [1, 2, 3]).2
        "b" 2 60 8).1 =
      (InMemory.get_remaining (updateKey emptyMem "b" [7]) "b" 2 60 8).1) :=
  key_isolation (updateKey emptyMem "b" [7]) "a" "b" 2 60 8 [1, 2, 3] (by decide)

-- C3: the facade's get_remaining ---------------------------------------------

/-- C3 (facade modelled from the spec, over the in-memory backend).
`RateLimiter.get_remaining(tenant_id)` returns exactly the backend's
`get_remaining` on the derived key `"ratelimit:" + tenant_id` as a
(nonnegative) integer, and consumes nothing: a later `check_and_consume`
returns the same result as if the peek had not happened — admission is
decided solely by `check_and_consume`. -/
theorem facade_get_remaining_delegates (rl : RateLimiter) (tenant : String) (now t2 : Int)
    (hnow : now ≤ t2) :
    ((rl.get_remaining tenant now).1 =
      (InMemory.get_remaining rl.backend (rate_limit_key tenant)
        rl.limit rl.window_seconds now).1) ∧
    (0 ≤ (rl.get_remaining tenant now).1) ∧
    (((rl.get_remaining tenant now).2.check_and_consume tenant t2).1 =
      (rl.check_and_consume tenant t2).1) := by
  refine ⟨rfl, ?_, ?_⟩
  · show 0 ≤ (InMemory.get_remaining rl.backend (rate_limit_key tenant)
      rl.limit rl.window_seconds now).1
    rw [get_remaining_eq_filter]
    simp
  · show (InMemory.check_and_consume
        (InMemory.get_remaining rl.backend (rate_limit_key tenant)
          rl.limit rl.window_seconds now).2
        (rate_limit_key tenant) rl.limit rl.window_seconds t2).1 = _
    rw [peek_then_check rl.backend (rate_limit_key tenant) rl.limit rl.window_seconds
      now t2 hnow]
    rfl

/-- Witness for C3: a facade with one consumed token, peeked then checked. -/
theorem facade_get_remaining_delegates_witness :
    ((RateLimiter.get_remaining ⟨updateKey emptyMem "ratelimit:t1" [100], 3, 60⟩ "t1" 200).1 =
      (InMemory.get_remaining (updateKey emptyMem "ratelimit:t1" [100])
        (rate_limit_key "t1") 3 60 200).1) ∧
    (0 ≤ (RateLimiter.get_remaining
        ⟨updateKey emptyMem "ratelimit:t1" [100], 3, 60⟩ "t1" 200).1) ∧
    (((RateLimiter.get_remaining
        ⟨updateKey emptyMem "ratelimit:t1" [100], 3, 60⟩ "t1" 200).2.check_and_consume
          "t1" 300).1 =
      (RateLimiter.check_and_consume
        ⟨updateKey emptyMem "ratelimit:t1" [100], 3, 60⟩ "t1" 300).1) :=
  facade_get_remaining_delegates ⟨updateKey emptyMem "ratelimit:t1" [100], 3, 60⟩
    "t1" 200 300 (by omega)

-- C4: Redis backend faults raise ServiceUnavailableError ----------------------

/-- C4. Every storage fault in the Redis backend's `check_and_consume`
surfaces as a raised `ServiceUnavailableError`, never as a result: a
connection/liveness-probe failure raises the `redis_connection_failed`
error whatever the script outcome would have been; an unexpected exception
from the script call is wrapped as the `redis_error` one; an already-raised
`ServiceUnavailableError` propagates unchanged; and a result is returned
only from a successful script reply (so a fault is never converted into
`allowed = false`). -/
theorem redis_faults_raise_service_unavailable (e : PyExn) (m : String)
    (err : ServiceUnavailableError) (evalReply : Except PyExn (Int × Int × Int))
    (reply : Int × Int × Int) :
    (RedisBackend.check_and_consume (.error e) evalReply =
        .error RedisBackend.connectionFailedError) ∧
    (RedisBackend.check_and_consume (.ok ()) (.error (.other m)) =
        .error RedisBackend.redisWrappedError) ∧
    (RedisBackend.check_and_consume (.ok ()) (.error (.service err)) = .error err) ∧
    (RedisBackend.check_and_consume (.ok ()) (.ok reply) =
        .ok ⟨decide (reply.1 ≠ 0), reply.2.1, reply.2.2⟩) :=
  ⟨rfl, rfl, rfl, rfl⟩

-- C2: retry_after, truncation versus ceiling ----------------------------------

/-- C2 (divergence evidence).  From a fresh key with `limit = 1`,
`window_seconds = 3`, calls at 3500 ms and 5000 ms: the in-memory backend
returns `retry_after = 1` for the denied second call (Python `int()`
truncation of 1.5, then floored at 1), while the claimed/Redis-script value
`ceil((3500 + 3000 - 5000) / 1000)` is 2 — the Redis script itself returns
2 on the same state. -/
theorem retry_after_floor_vs_ceil :
    ((InMemory.runCalls emptyMem "k" 1 3 [3500, 5000]).1.map
        (fun r => r.retry_after) = [0, 1]) ∧
    ((RedisScript.rate_limit_script [3500] 3 1 5000).1 = (0, 0, 2)) ∧
    (RedisScript.ceilDiv (3500 + 3 * 1000 - 5000) 1000 = 2) ∧
    ((1 : Int) ≠ 2) := by
  refine ⟨?_, ?_, ?_, ?_⟩ <;> decide
